import Mathlib

/-!
A formal model of the binance-sport-bot trading engine, translated from its
TypeScript sources.  Prices, quantities and balances are modelled as exact
rationals; JavaScript numbers that may be NaN or infinite are modelled by
the type JNum.  The technical indicator and pair scoring pipeline, which
uses Math.sqrt, is modelled over the real numbers.
-/

namespace BinanceBot

/-- A JavaScript number: a finite rational, NaN, or a signed infinity. -/
inductive JNum where
  | fin (q : ℚ)
  | nan
  | inf
  | ninf
  deriving DecidableEq, Repr

/-- The JavaScript isFinite test. -/
def JNum.isFinite : JNum → Bool
  | .fin _ => true
  | _ => false

/-- JavaScript truthiness of a number: 0 and NaN are falsy. -/
def JNum.truthy : JNum → Bool
  | .fin q => decide (q ≠ 0)
  | .nan => false
  | .inf => true
  | .ninf => true

/-- The JavaScript comparison v less-or-equal zero (false on NaN). -/
def JNum.le0 : JNum → Bool
  | .fin q => decide (q ≤ 0)
  | .nan => false
  | .inf => false
  | .ninf => true

/-! ## Decimal string normalization (src/utils/orderUtils.ts toDbNumberString,
    src/strategies/baseStrategy.ts formatNumber) -/

/-- Digits of m in base 10, big endian, padded on the left to exactly k
    digits: the k fractional digits that toFixed(k) prints for m / 10 ^ k. -/
def digitsBE : ℕ → ℕ → List ℕ
  | 0, _ => []
  | k + 1, m => digitsBE k (m / 10) ++ [m % 10]

/-- Drop trailing zero digits, as the replace of zeros at the end does. -/
def stripTrailingZeros (l : List ℕ) : List ℕ :=
  ((l.reverse).dropWhile (fun d => d == 0)).reverse

/-- A fixed-point decimal string: sign, integer part, fractional digits.
    This is the normal form the formatting helpers produce; rendering it
    never uses an exponent. -/
structure DecString where
  neg : Bool
  intPart : ℕ
  frac : List ℕ
  deriving DecidableEq, Repr

/-- The rational value a DecString denotes. -/
def fracVal (l : List ℕ) : ℚ :=
  l.foldr (fun dig acc => ((dig : ℚ) + acc) / 10) 0

def DecString.val (d : DecString) : ℚ :=
  (if d.neg then -1 else 1) * ((d.intPart : ℚ) + fracVal d.frac)

/-- Math.round: round half toward positive infinity. -/
def jsRound (q : ℚ) : ℤ := round q

/-- toDbNumberString: round the value to 8 decimals, print it with
    toFixed(8), strip trailing zeros and a bare decimal point; a non-finite
    value becomes the string 0. -/
def toDbNumberString (v : JNum) : DecString :=
  match v with
  | .fin q =>
    let n : ℤ := jsRound (q * 10 ^ 8)
    let m : ℕ := n.natAbs
    { neg := decide (n < 0)
      intPart := m / 10 ^ 8
      frac := stripTrailingZeros (digitsBE 8 (m % 10 ^ 8)) }
  | _ => { neg := false, intPart := 0, frac := [] }

/-- formatNumber inside BaseStrategy.saveTrade: the same rounding and
    stripping as toDbNumberString; undefined, null, NaN and infinite
    values all become the string 0.  The final regex fallback of the
    source cannot fire, because toFixed output never has leading zeros,
    so it has no branch here. -/
def formatNumber (v : Option JNum) : DecString :=
  match v with
  | none => { neg := false, intPart := 0, frac := [] }
  | some j => toDbNumberString j

/-- The character of one decimal digit. -/
def digitChar (d : ℕ) : Char :=
  match d with
  | 0 => '0' | 1 => '1' | 2 => '2' | 3 => '3' | 4 => '4'
  | 5 => '5' | 6 => '6' | 7 => '7' | 8 => '8' | _ => '9'

/-- Big-endian decimal digits of a natural number (empty for zero). -/
def natDigits (n : ℕ) : List ℕ := (Nat.digits 10 n).reverse

/-- Render a DecString the way JavaScript prints the formatted number:
    optional minus sign, integer digits, and a dot with the fractional
    digits when there are any. -/
def DecString.render (d : DecString) : String :=
  let intDigits := if d.intPart = 0 then [0] else natDigits d.intPart
  let sign := if d.neg then ['-'] else []
  let fracPart := if d.frac.isEmpty then [] else '.' :: d.frac.map digitChar
  String.mk (sign ++ intDigits.map digitChar ++ fracPart)

/-! ## Trade persistence (src/strategies/baseStrategy.ts saveTrade) -/

inductive Side where
  | buy
  | sell
  deriving DecidableEq, Repr

inductive OrderType where
  | market
  | limit
  deriving DecidableEq, Repr

/-- The argument record of BaseStrategy.saveTrade. -/
structure TradeData where
  positionId : Option String
  symbol : String
  side : Side
  orderType : OrderType
  quantity : JNum
  price : JNum
  fee : JNum
  feeAsset : String
  pnl : Option JNum
  pnlPercent : Option JNum
  binanceOrderId : Option String
  status : String

/-- One persisted row of the trades table. -/
structure TradeRow where
  positionId : Option String
  strategyId : String
  symbol : String
  side : Side
  orderType : OrderType
  quantity : DecString
  price : DecString
  fee : DecString
  feeAsset : String
  pnl : DecString
  pnlPercent : DecString
  binanceOrderId : Option String
  status : String
  deriving DecidableEq

/-- The refusal guard in saveTrade:
    not price, or not isFinite(price), or price less-or-equal 0. -/
def invalidTradePrice (p : JNum) : Bool :=
  !p.truthy || !p.isFinite || p.le0

/-- BaseStrategy.saveTrade: refuse a non-positive or non-finite price with
    an error; otherwise append one formatted row to the trades table. -/
def saveTrade (strategyId : String) (td : TradeData) (trades : List TradeRow) :
    Except String (List TradeRow) :=
  if invalidTradePrice td.price then
    .error "Refuse to save trade with non-positive price"
  else
    .ok (trades ++ [{ positionId := td.positionId
                      strategyId := strategyId
                      symbol := td.symbol
                      side := td.side
                      orderType := td.orderType
                      quantity := formatNumber (some td.quantity)
                      price := formatNumber (some td.price)
                      fee := formatNumber (some td.fee)
                      feeAsset := td.feeAsset
                      pnl := formatNumber td.pnl
                      pnlPercent := formatNumber td.pnlPercent
                      binanceOrderId := td.binanceOrderId
                      status := td.status }])

/-- The trades table a saveTrade call leaves behind: a row is appended only
    on success, a thrown error leaves the table as it was. -/
def tradesAfterSave (strategyId : String) (td : TradeData)
    (trades : List TradeRow) : List TradeRow :=
  match saveTrade strategyId td trades with
  | .ok t => t
  | .error _ => trades

/-- The claim hypothesis: the trade price is non-positive or non-finite. -/
def NonPosOrNonFinite (p : JNum) : Prop :=
  match p with
  | .fin q => q ≤ 0
  | _ => True

/-! ## Risk calculator (src/services/risk/riskCalculator.ts) -/

inductive RiskLevel where
  | low
  | medium
  | high
  deriving DecidableEq, Repr

/-- The information content of the reason strings the risk checks build. -/
inductive RiskReason where
  | insufficientBalance
  | positionSizeExceeded (positionPercent maxPercent : ℚ)
  | maxConcurrentPositions (maxPositions : ℕ)
  | dailyLossLimit (limitPercent lossPercent : ℚ)
  | correlatedAsset
  deriving DecidableEq, Repr

structure RiskCheckResult where
  allowed : Bool
  reason : Option RiskReason
  riskLevel : RiskLevel
  deriving DecidableEq, Repr

structure RiskLimits where
  maxPositionSizePercent : ℚ
  stopLossPercent : ℚ
  takeProfitPercent : ℚ
  dailyLossLimitPercent : ℚ
  maxConcurrentPositions : ℕ

structure Balance where
  free : ℚ
  locked : ℚ
  total : ℚ

structure PositionRow where
  symbol : String
  isOpen : Bool

/-- What the risk checks read: the USDT balance from the exchange (none
    models a missing balance), the positions table, the pnl column of the
    trades executed today, and the risk limits resolved for the user. -/
structure RiskEnv where
  balance : Option Balance
  positions : List PositionRow
  todayTradePnls : List ℚ
  limits : RiskLimits

/-- RiskCalculator.checkPositionSize. -/
def checkPositionSize (env : RiskEnv) (quantity price : ℚ) : RiskCheckResult :=
  let positionValue := quantity * price
  match env.balance with
  | none => ⟨false, some .insufficientBalance, .high⟩
  | some balance =>
    if balance.total = 0 then ⟨false, some .insufficientBalance, .high⟩
    else
      let positionPercent := positionValue / balance.total * 100
      if env.limits.maxPositionSizePercent < positionPercent then
        ⟨false, some (.positionSizeExceeded positionPercent
          env.limits.maxPositionSizePercent), .high⟩
      else ⟨true, none, .medium⟩

/-- RiskCalculator.checkConcurrentPositions. -/
def checkConcurrentPositions (env : RiskEnv) : RiskCheckResult :=
  let openPositions := env.positions.filter (·.isOpen)
  if env.limits.maxConcurrentPositions ≤ openPositions.length then
    ⟨false, some (.maxConcurrentPositions env.limits.maxConcurrentPositions), .high⟩
  else ⟨true, none, .medium⟩

/-- RiskCalculator.checkDailyLossLimit. -/
def checkDailyLossLimit (env : RiskEnv) : RiskCheckResult :=
  let todayPnL := env.todayTradePnls.sum
  match env.balance with
  | none => ⟨true, none, .medium⟩
  | some balance =>
    if balance.total = 0 then ⟨true, none, .medium⟩
    else
      let lossPercent := |min 0 todayPnL| / balance.total * 100
      if env.limits.dailyLossLimitPercent ≤ lossPercent then
        ⟨false, some (.dailyLossLimit env.limits.dailyLossLimitPercent
          lossPercent), .high⟩
      else ⟨true, none, .medium⟩

/-- The base asset of a symbol: the USDT substring removed.  String.replace
    removes every occurrence, JavaScript only the first; trading symbols
    contain USDT at most once, where the two agree. -/
def baseAssetOf (symbol : String) : String := symbol.replace "USDT" ""

/-- RiskCalculator.checkCorrelation: flags a correlated open position but
    always allows the trade. -/
def checkCorrelation (env : RiskEnv) (symbol : String) : RiskCheckResult :=
  let baseAsset := baseAssetOf symbol
  let openPositions := env.positions.filter (·.isOpen)
  match openPositions.find?
      (fun p => p.symbol == symbol || baseAssetOf p.symbol == baseAsset) with
  | some existing =>
    if existing.symbol = symbol then ⟨true, none, .medium⟩
    else ⟨true, some .correlatedAsset, .medium⟩
  | none => ⟨true, none, .low⟩

/-- RiskCalculator.checkTradeRisk: the four checks run in a fixed order and
    the first denial is returned unchanged. -/
def checkTradeRisk (env : RiskEnv) (symbol : String) (quantity price : ℚ)
    (side : Side) : RiskCheckResult :=
  let c1 := checkPositionSize env quantity price
  if !c1.allowed then c1
  else
    let c2 := checkConcurrentPositions env
    if !c2.allowed then c2
    else
      let c3 := checkDailyLossLimit env
      if !c3.allowed then c3
      else
        let c4 := checkCorrelation env symbol
        if !c4.allowed then c4
        else ⟨true, none, .medium⟩

/-! ## Order reconciliation (src/utils/orderUtils.ts, the exported
    extractExecutedFromResult and resolveExecutedFromExchange) -/

structure Fill where
  price : ℚ
  qty : ℚ
  commission : ℚ
  commissionAsset : String
  deriving DecidableEq, Repr

/-- The ExecutedLike order result shape. -/
structure ExecutedLike where
  price : Option ℚ
  executedQty : Option ℚ
  fills : Option (List Fill)
  orderId : Option ℕ
  symbol : Option String

/-- JavaScript a or-else b on numbers: b exactly when a is zero. -/
def jsOr (a b : ℚ) : ℚ := if a = 0 then b else a

/-- extractExecutedFromResult: the quantity-weighted average price and the
    summed quantity from the fills when the summed quantity is positive;
    otherwise fall back to the reported price and executedQty fields when
    those are positive.  Returns (price, qty). -/
def extractExecutedFromResult (result : ExecutedLike) : ℚ × ℚ :=
  let fromFills : ℚ × ℚ :=
    match result.fills with
    | some fills =>
      if fills ≠ [] then
        let totalValue := (fills.map (fun f => f.price * f.qty)).sum
        let totalQty := (fills.map (fun f => f.qty)).sum
        if 0 < totalQty then (totalValue / totalQty, totalQty) else (0, 0)
      else (0, 0)
    | none => (0, 0)
  let price := fromFills.1
  let qty := fromFills.2
  let price :=
    if price ≤ 0 then
      match result.price with
      | some p => if 0 < p then p else price
      | none => price
    else price
  let qty :=
    if qty ≤ 0 then
      match result.executedQty with
      | some q0 => if 0 < q0 then q0 else qty
      | none => qty
    else qty
  (price, qty)

/-- The getOrder response fields the resolver reads (the source spells the
    field cummulativeQuoteQty). -/
structure ExchangeOrder where
  executedQty : Option ℚ
  cummulativeQuoteQty : Option ℚ

/-- resolveExecutedFromExchange: return the locally extracted values when
    they are valid; otherwise query the exchange and derive the price as
    cummulativeQuoteQty divided by executedQty.  getOrder is the exchange
    oracle (none models a thrown request; the catch returns the local
    values).  The Bool of the result records whether the exchange was
    queried. -/
def resolveExecutedFromExchange (result : ExecutedLike)
    (getOrder : Option ExchangeOrder) : (ℚ × ℚ) × Bool :=
  let pq := extractExecutedFromResult result
  let price := pq.1
  let qty := pq.2
  if 0 < price ∧ 0 < qty then ((price, qty), false)
  else if result.symbol = none ∨ result.orderId = none then
    ((jsOr price 0, jsOr qty 0), false)
  else
    match getOrder with
    | none => ((jsOr price 0, jsOr qty 0), true)
    | some order =>
      let executedQty := (order.executedQty).getD 0
      let executedPrice :=
        if 0 < executedQty then
          let cqq := (order.cummulativeQuoteQty).getD 0
          if 0 < cqq then cqq / executedQty else 0
        else 0
      ((jsOr executedPrice (jsOr price 0), jsOr executedQty (jsOr qty 0)), true)

/-! ## Stop-loss and take-profit monitor (StopLossManager) -/

/-- One row of the positions table, as the monitor reads and writes it.
    closedAt records whether the close timestamp has been set. -/
structure MonPosition where
  id : String
  strategyId : String
  symbol : String
  quantity : ℚ
  entryPrice : ℚ
  stopLoss : Option ℚ
  takeProfit : Option ℚ
  currentPrice : Option ℚ
  unrealizedPnl : Option ℚ
  unrealizedPnlPercent : Option ℚ
  isOpen : Bool
  closedAt : Bool
  deriving DecidableEq, Repr

/-- A market sell result from the order manager. -/
structure OrderResult where
  orderId : ℕ
  fills : List Fill
  price : Option ℚ
  executedQty : Option ℚ

/-- The order result viewed as an ExecutedLike (the extraction reads only
    price, executedQty and fills). -/
def OrderResult.toExecutedLike (result : OrderResult) : ExecutedLike :=
  { price := result.price, executedQty := result.executedQty
    fills := some result.fills, orderId := some result.orderId
    symbol := none }

/-- One trade row the monitor inserts directly, bypassing saveTrade. -/
structure MonTradeRow where
  positionId : String
  strategyId : String
  symbol : String
  side : Side
  orderType : OrderType
  quantity : ℚ
  price : ℚ
  fee : ℚ
  feeAsset : String
  pnl : ℚ
  pnlPercent : ℚ
  binanceOrderId : ℕ
  status : String
  deriving DecidableEq, Repr

/-- The external calls of the monitor: the price feed, market sell orders,
    and the order status query used by resolveExecutedFromExchange.  A
    none models a thrown call. -/
structure MonitorEnv where
  getPrice : String → Option ℚ
  marketSell : String → ℚ → Option OrderResult
  getOrder : Option ExchangeOrder

/-- The stored state the monitor reads and writes. -/
structure MonitorState where
  positions : List MonPosition
  trades : List MonTradeRow
  deriving DecidableEq, Repr

/-- Update the position row with the given id. -/
def setPosition (ps : List MonPosition) (id : String)
    (f : MonPosition → MonPosition) : List MonPosition :=
  ps.map (fun p => if p.id = id then f p else p)

/-- The executed price of a monitor market sell: extract locally, and
    resolve through the exchange when the local price is invalid, passing
    only price, orderId and symbol as the source does. -/
def monitorExecutedPrice (env : MonitorEnv) (position : MonPosition)
    (result : OrderResult) : ℚ :=
  let executedPrice := (extractExecutedFromResult result.toExecutedLike).1
  if executedPrice ≤ 0 then
    ((resolveExecutedFromExchange
      { price := some executedPrice, executedQty := none, fills := none
        orderId := some result.orderId, symbol := some position.symbol }
      env.getOrder).1).1
  else executedPrice

/-- StopLossManager.executeStopLoss: re-read the position, place a market
    sell, reconcile the executed price, insert a trade row, and close the
    position.  A thrown sell leaves the state unchanged (the sweep catches
    the rethrown error). -/
def executeStopLoss (env : MonitorEnv) (st : MonitorState)
    (positionId : String) : MonitorState :=
  match st.positions.find? (fun p => p.id == positionId) with
  | none => st
  | some position =>
    if !position.isOpen then st
    else
      let quantity := position.quantity
      match env.marketSell position.symbol quantity with
      | none => st
      | some result =>
        let executedPrice := monitorExecutedPrice env position result
        let entryPrice := position.entryPrice
        let pnl := (executedPrice - entryPrice) * quantity
        let pnlPercent := (executedPrice - entryPrice) / entryPrice * 100
        let fee := (result.fills.map (fun f => f.commission)).sum
        let feeAsset :=
          match result.fills.head? with
          | some f => f.commissionAsset
          | none => baseAssetOf position.symbol
        let trade : MonTradeRow :=
          { positionId := position.id, strategyId := position.strategyId
            symbol := position.symbol, side := .sell, orderType := .market
            quantity := quantity, price := executedPrice, fee := fee
            feeAsset := feeAsset, pnl := pnl - fee, pnlPercent := pnlPercent
            binanceOrderId := result.orderId, status := "FILLED" }
        { positions := setPosition st.positions positionId (fun p =>
            { p with isOpen := false, closedAt := true
                     currentPrice := some executedPrice
                     unrealizedPnl := some 0
                     unrealizedPnlPercent := some 0 })
          trades := st.trades ++ [trade] }

/-- StopLossManager.executeTakeProfit: re-read the position, place a market
    sell, reconcile the executed price, and close the position.  The pnl
    and fee are computed but the source inserts no trade row here. -/
def executeTakeProfit (env : MonitorEnv) (st : MonitorState)
    (positionId : String) : MonitorState :=
  match st.positions.find? (fun p => p.id == positionId) with
  | none => st
  | some position =>
    if !position.isOpen then st
    else
      let quantity := position.quantity
      match env.marketSell position.symbol quantity with
      | none => st
      | some result =>
        let executedPrice := monitorExecutedPrice env position result
        { positions := setPosition st.positions positionId (fun p =>
            { p with isOpen := false, closedAt := true
                     currentPrice := some executedPrice
                     unrealizedPnl := some 0
                     unrealizedPnlPercent := some 0 })
          trades := st.trades }

/-- The else branch of the sweep: refresh current price and unrealized
    profit of the position. -/
def updateUnrealized (st : MonitorState) (position : MonPosition)
    (currentPrice : ℚ) : MonitorState :=
  let entryPrice := position.entryPrice
  let pnl := (currentPrice - entryPrice) * position.quantity
  let pnlPercent := (currentPrice - entryPrice) / entryPrice * 100
  { st with positions := setPosition st.positions position.id (fun p =>
      { p with currentPrice := some currentPrice
               unrealizedPnl := some pnl
               unrealizedPnlPercent := some pnlPercent }) }

/-- The take-profit check of the sweep, reached when no stop loss fired. -/
def sweepCheckTakeProfit (env : MonitorEnv) (st : MonitorState)
    (position : MonPosition) (currentPrice : ℚ) : MonitorState :=
  match position.takeProfit with
  | some takeProfitPrice =>
    if takeProfitPrice ≤ currentPrice then executeTakeProfit env st position.id
    else updateUnrealized st position currentPrice
  | none => updateUnrealized st position currentPrice

/-- One iteration of the sweep over a snapshot position: fetch the price
    (a thrown fetch skips the position), fire the stop loss on a breach,
    else the take profit, else refresh the stored price. -/
def sweepPosition (env : MonitorEnv) (st : MonitorState)
    (position : MonPosition) : MonitorState :=
  match env.getPrice position.symbol with
  | none => st
  | some currentPrice =>
    match position.stopLoss with
    | some stopLossPrice =>
      if currentPrice ≤ stopLossPrice then executeStopLoss env st position.id
      else sweepCheckTakeProfit env st position currentPrice
    | none => sweepCheckTakeProfit env st position currentPrice

/-- StopLossManager.checkAndExecuteStopLosses: sweep every open position. -/
def checkAndExecuteStopLosses (env : MonitorEnv) (st : MonitorState) :
    MonitorState :=
  (st.positions.filter (·.isOpen)).foldl (fun acc p => sweepPosition env acc p) st

/-! ## Strategy manager execution loop (StrategyManager.executeAll) -/

/-- A loaded strategy as the manager sees it over one tick: its id, its
    active flag, and the outcome of its execute call this tick (none
    models a thrown execute). -/
structure ManagedStrategy where
  id : String
  active : Bool
  execRes : Option Bool

inductive ManagerEvent where
  | executed (strategyId : String)
  | errored (strategyId : String)
  deriving DecidableEq, Repr

/-- StrategyManager.executeStrategy: skip an inactive strategy; otherwise
    call execute, emit strategy:executed on a result, and on a thrown
    execute emit strategy:error and rethrow (the Bool of the result). -/
def executeStrategy (s : ManagedStrategy) : List ManagerEvent × Bool :=
  if !s.active then ([], false)
  else
    match s.execRes with
    | some _ => ([.executed s.id], false)
    | none => ([.errored s.id], true)

/-- The executeAll loop body for one strategy: executeStrategy inside a
    try block whose catch emits one more strategy:error event and moves
    on to the next strategy. -/
def executeAllStep (s : ManagedStrategy) : List ManagerEvent :=
  let r := executeStrategy s
  if r.2 then r.1 ++ [.errored s.id] else r.1

/-- StrategyManager.executeAll over one tick: filter the active strategies
    and run each in order, isolating failures per strategy.  Returns the
    ids whose executeStrategy call ran and the events emitted. -/
def executeAll (strategies : List ManagedStrategy) :
    List String × List ManagerEvent :=
  let activeStrategies := strategies.filter (·.active)
  activeStrategies.foldl
    (fun acc s => (acc.1 ++ [s.id], acc.2 ++ executeAllStep s)) ([], [])

/-! ## Trailing stop (MomentumStrategy.updateTrailingStop) -/

/-- The position fields updateTrailingStop reads and writes. -/
structure TrailPosition where
  isOpen : Bool
  entryPrice : ℚ
  stopLoss : Option ℚ
  deriving DecidableEq, Repr

/-- MomentumStrategy.updateTrailingStop: recompute the trailing stop only
    while the position is in profit, and write it only when it is strictly
    above the current stop (a missing stop column reads as zero).  A
    missing or closed position, or an absent or zero trailingStopPercent
    config (falsy in the source), is a no-op. -/
def updateTrailingStop (trailingStopPercent : Option ℚ)
    (position : Option TrailPosition) (currentPrice : ℚ) :
    Option TrailPosition :=
  match position with
  | none => none
  | some p =>
    if !p.isOpen then some p
    else
      match trailingStopPercent with
      | none => some p
      | some tsp =>
        if tsp = 0 then some p
        else
          let profitPercent := (currentPrice - p.entryPrice) / p.entryPrice * 100
          if 0 < profitPercent then
            let trailingStopPrice := currentPrice * (1 - tsp / 100)
            let currentStopLoss := p.stopLoss.getD 0
            if currentStopLoss < trailingStopPrice then
              some { p with stopLoss := some trailingStopPrice }
            else some p
          else some p

/-- The effective stored stop of a position row: a missing stop reads as
    zero, exactly as the update itself reads it. -/
def storedStop (position : Option TrailPosition) : ℚ :=
  match position with
  | some p => p.stopLoss.getD 0
  | none => 0

/-- A sequence of trailing stop updates driven by a price list. -/
def runTrailingUpdates (trailingStopPercent : Option ℚ)
    (position : Option TrailPosition) (prices : List ℚ) :
    Option TrailPosition :=
  prices.foldl (fun pos price => updateTrailingStop trailingStopPercent pos price)
    position

/-! ## Backtest window validation and engine (DataProvider.validateDateRange,
    BacktestEngine.runBacktest, PerformanceAnalyzer) -/

/-- The result record of DataProvider.validateDateRange. -/
structure DateValidation where
  valid : Bool
  error : Option String
  deriving DecidableEq, Repr

/-- DataProvider.validateDateRange; dates are millisecond timestamps and
    now is the clock reading of the future check. -/
def validateDateRange (startDate endDate : ℤ) (now : ℤ) : DateValidation :=
  if endDate ≤ startDate then
    ⟨false, some "Start date must be before end date"⟩
  else
    let daysDiff : ℚ := ((endDate - startDate : ℤ) : ℚ) / (1000 * 60 * 60 * 24)
    if (365 : ℚ) < daysDiff then
      ⟨false, some "Date range cannot exceed 365 days"⟩
    else if now < endDate then
      ⟨false, some "End date cannot be in the future"⟩
    else ⟨true, none⟩

/-- A candle of the backtest replay (close price and open timestamp). -/
structure SimKline where
  close : ℚ
  timestamp : ℤ
  deriving DecidableEq, Repr

/-- A trade record of the replay, as the analyzer consumes it. -/
structure SimTrade where
  entryPrice : ℚ
  exitPrice : ℚ
  quantity : ℚ
  entryTime : ℤ
  exitTime : ℤ
  pnl : ℚ
  pnlPercent : ℚ
  fee : ℚ
  deriving DecidableEq, Repr

structure SimPosition where
  id : ℕ
  entryPrice : ℚ
  quantity : ℚ
  entryTime : ℤ
  deriving DecidableEq, Repr

structure SimState where
  balance : ℚ
  trades : List SimTrade
  positions : List SimPosition
  counter : ℕ
  deriving DecidableEq, Repr

/-- The exit test of the simplified replay: take profit at plus five
    percent or stop loss at minus two and a half percent. -/
def simShouldExit (currentPrice : ℚ) (p : SimPosition) : Bool :=
  let pnlPercent := (currentPrice - p.entryPrice) / p.entryPrice * 100
  decide (5 ≤ pnlPercent) || decide (pnlPercent ≤ -(5 / 2))

/-- Close one replay position at the current candle (fee one tenth of a
    percent of the exit value). -/
def simCloseTrade (currentPrice : ℚ) (currentTime : ℤ) (p : SimPosition) :
    SimTrade :=
  let pnl := (currentPrice - p.entryPrice) * p.quantity
  let pnlPercent := (currentPrice - p.entryPrice) / p.entryPrice * 100
  let fee := currentPrice * p.quantity * (1 / 1000)
  { entryPrice := p.entryPrice, exitPrice := currentPrice
    quantity := p.quantity, entryTime := p.entryTime, exitTime := currentTime
    pnl := pnl, pnlPercent := pnlPercent, fee := fee }

/-- One candle of BacktestEngine.simulateTrading: close every position
    whose threshold fired (the splice by collected ids equals a filter,
    since replay ids are unique), then open one position sized at a tenth
    of the balance when flat and the balance is at least the floor. -/
def simStep (st : SimState) (k : SimKline) : SimState :=
  let currentPrice := k.close
  let exits := st.positions.filter (simShouldExit currentPrice)
  let kept := st.positions.filter (fun p => !simShouldExit currentPrice p)
  let newTrades := exits.map (simCloseTrade currentPrice k.timestamp)
  let balance := st.balance + (newTrades.map (fun t => t.pnl - t.fee)).sum
  let st1 : SimState :=
    { balance := balance, trades := st.trades ++ newTrades
      positions := kept, counter := st.counter }
  if st1.positions = [] ∧ 100 ≤ st1.balance then
    let positionSize := min (st1.balance * (1 / 10)) (st1.balance - 10)
    let quantity := positionSize / currentPrice
    let entryFee := positionSize * (1 / 1000)
    if positionSize + entryFee ≤ st1.balance then
      { balance := st1.balance - (positionSize + entryFee)
        trades := st1.trades
        positions := st1.positions ++
          [{ id := st1.counter, entryPrice := currentPrice
             quantity := quantity, entryTime := k.timestamp }]
        counter := st1.counter + 1 }
    else st1
  else st1

/-- BacktestEngine.simulateTrading: replay from candle index 20 onward,
    then close any remaining position at the last candle. -/
def simulateTrading (klines : List SimKline) (initialBalance : ℚ) :
    List SimTrade :=
  let st0 : SimState :=
    { balance := initialBalance, trades := [], positions := [], counter := 0 }
  let st := (klines.drop 20).foldl simStep st0
  match klines.getLast? with
  | some lastK =>
    st.trades ++ st.positions.map (simCloseTrade lastK.close lastK.timestamp)
  | none => st.trades

/-- The analyzer fields runBacktest persists. -/
structure PerformanceMetrics where
  totalReturn : ℚ
  totalReturnPercent : ℚ
  sharpeRatio : ℚ
  maxDrawdown : ℚ
  maxDrawdownPercent : ℚ
  winRate : ℚ
  totalTrades : ℕ
  winningTrades : ℕ
  losingTrades : ℕ
  deriving DecidableEq, Repr

/-- PerformanceAnalyzer.calculateMaxDrawdown over the balance curve:
    incremental peak-to-trough absolute and percent drawdown. -/
def calculateMaxDrawdown (balances : List ℚ) : ℚ × ℚ :=
  match balances with
  | [] => (0, 0)
  | b0 :: _ =>
    let f := fun (acc : ℚ × ℚ × ℚ) (balance : ℚ) =>
      let maxBalance := max acc.1 balance
      let drawdown := maxBalance - balance
      let drawdownPercent := drawdown / maxBalance * 100
      (maxBalance, max acc.2.1 drawdown, max acc.2.2 drawdownPercent)
    let r := balances.foldl f (b0, 0, 0)
    (r.2.1, r.2.2)

/-- PerformanceAnalyzer.calculateSharpeRatio; sqrtFn models Math.sqrt. -/
def calculateSharpeRatio (sqrtFn : ℚ → ℚ) (trades : List SimTrade) : ℚ :=
  match trades with
  | [] => 0
  | _ =>
    let returns := trades.map (·.pnlPercent)
    let n : ℚ := returns.length
    let meanReturn := returns.sum / n
    let variance := (returns.map (fun r => (r - meanReturn) ^ 2)).sum / n
    let stdDev := sqrtFn variance
    if stdDev = 0 then 0 else meanReturn / stdDev

/-- PerformanceAnalyzer.calculateMetrics, restricted to the fields
    runBacktest reads and persists. -/
def calculateMetrics (sqrtFn : ℚ → ℚ) (initialBalance : ℚ)
    (trades : List SimTrade) : PerformanceMetrics :=
  match trades with
  | [] => ⟨0, 0, 0, 0, 0, 0, 0, 0, 0⟩
  | _ =>
    let netPnls := trades.map (fun t => t.pnl - t.fee)
    let balances := netPnls.scanl (fun a b => a + b) initialBalance
    let winners := trades.filter (fun t => decide (0 < t.pnl - t.fee))
    let losers := trades.filter (fun t => !decide (0 < t.pnl - t.fee))
    let finalBalance := initialBalance + netPnls.sum
    let totalReturn := finalBalance - initialBalance
    let totalReturnPercent := totalReturn / initialBalance * 100
    let dd := calculateMaxDrawdown balances
    let sharpeRatio := calculateSharpeRatio sqrtFn trades
    let winRate := (winners.length : ℚ) / (trades.length : ℚ) * 100
    ⟨totalReturn, totalReturnPercent, sharpeRatio, dd.1, dd.2, winRate,
      trades.length, winners.length, losers.length⟩

structure BacktestConfig where
  symbol : String
  startDate : ℤ
  endDate : ℤ
  initialBalance : ℚ

/-- The outcome record of a completed backtest run. -/
structure BacktestRun where
  startDate : ℤ
  endDate : ℤ
  initialBalance : ℚ
  finalBalance : ℚ
  metrics : PerformanceMetrics
  trades : List SimTrade

/-- Which side effects a runBacktest call performed. -/
structure BacktestEffects where
  fetched : Bool
  simulated : Bool
  saved : Bool
  deriving DecidableEq, Repr

/-- The collaborators of runBacktest: the candle fetch (none models a
    thrown exchange call) and Math.sqrt for the analyzer. -/
structure BacktestEnv where
  getHistoricalData : Option (List SimKline)
  sqrtFn : ℚ → ℚ

/-- BacktestEngine.runBacktest: validate the window first and throw the
    validation reason before any fetch, simulation or save; otherwise
    fetch, simulate, analyze, and persist the result. -/
def runBacktest (env : BacktestEnv) (config : BacktestConfig) (now : ℤ) :
    Except String BacktestRun × BacktestEffects :=
  let validation := validateDateRange config.startDate config.endDate now
  if !validation.valid then
    (.error (validation.error.getD ""), ⟨false, false, false⟩)
  else
    match env.getHistoricalData with
    | none => (.error "Error fetching historical data", ⟨true, false, false⟩)
    | some klines =>
      let trades := simulateTrading klines config.initialBalance
      let metrics := calculateMetrics env.sqrtFn config.initialBalance trades
      let finalBalance := config.initialBalance + metrics.totalReturn
      (.ok { startDate := config.startDate, endDate := config.endDate
             initialBalance := config.initialBalance
             finalBalance := finalBalance, metrics := metrics
             trades := trades },
        ⟨true, true, true⟩)

/-! ## Strategy lifecycle (BaseStrategy.start) -/

/-- The lifecycle state: the in-memory active flag and the persisted
    active column. -/
structure LifecycleState where
  isActive : Bool
  dbActive : Bool
  deriving DecidableEq, Repr

/-- What a BaseStrategy.start call performed besides its result. -/
structure StartEffects where
  initCalled : Bool
  dbWritten : Bool
  deriving DecidableEq, Repr

/-- BaseStrategy.start: throw when already active, before the subclass
    initialization runs and without touching either flag; otherwise run
    the initialization (initRes is its outcome; a thrown initialization
    is rethrown with the flags untouched), set the flag and persist it. -/
def startStrategy (initRes : Except String Unit) (st : LifecycleState) :
    Except String LifecycleState × StartEffects :=
  if st.isActive then
    (.error "Strategy is already active", ⟨false, false⟩)
  else
    match initRes with
    | .error e => (.error e, ⟨true, false⟩)
    | .ok _ => (.ok { isActive := true, dbActive := true }, ⟨true, true⟩)

/-! ## Technical indicators and pair scorer (technicalIndicators.ts,
    PairScorer).  This pipeline uses Math.sqrt, so it is modelled over the
    real numbers; indicator warm-up entries that the source fills with NaN
    are modelled by none. -/

noncomputable section

/-- A candle with finite numeric fields, as the exchange delivers it. -/
structure KlineR where
  openPrice : ℝ
  highPrice : ℝ
  lowPrice : ℝ
  closePrice : ℝ
  volume : ℝ

/-- calculateSMA: NaN before the first full window, then the window mean. -/
def calculateSMA (prices : List ℝ) (period : ℕ) : List (Option ℝ) :=
  (List.range prices.length).map fun i =>
    if i < period - 1 then none
    else some ((((prices.drop (i + 1 - period)).take period).sum) / (period : ℝ))

/-- calculateEMA: seeded with the first price, a growing mean below the
    period, then the exponential update on the previous entry. -/
def calculateEMA (prices : List ℝ) (period : ℕ) : List ℝ :=
  let k : ℝ := 2 / ((period : ℝ) + 1)
  let step := fun (acc : List ℝ × ℕ) (p : ℝ) =>
    let ema := acc.1
    let i := acc.2
    let v :=
      if i = 0 then p
      else if i < period then ((prices.take (i + 1)).sum) / ((i : ℝ) + 1)
      else
        let prev := ema.getLastD 0
        (p - prev) * k + prev
    (ema ++ [v], i + 1)
  (prices.foldl step ([], 0)).1

/-- calculateRSI over the price changes; NaN below the period index. -/
def calculateRSI (prices : List ℝ) (period : ℕ) : List (Option ℝ) :=
  let changes := List.zipWith (fun a b => a - b) (prices.drop 1) prices
  (List.range prices.length).map fun i =>
    if i < period then none
    else
      let relevantChanges := (changes.drop (i - period)).take period
      let gains := relevantChanges.filter (fun c => decide (0 < c))
      let losses := (relevantChanges.filter (fun c => decide (c < 0))).map
        (fun c => |c|)
      let avgGain := if gains.length ≠ 0 then gains.sum / (period : ℝ) else 0
      let avgLoss := if losses.length ≠ 0 then losses.sum / (period : ℝ) else 0
      if avgLoss = 0 then some 100
      else
        let rs := avgGain / avgLoss
        some (100 - 100 / (1 + rs))

structure MACDResult where
  macd : List ℝ
  signal : List ℝ
  histogram : List ℝ

/-- calculateMACD: over finite candle data the EMA lines carry no NaN, so
    the macd line is the plain difference, the NaN filter before the
    signal line is the identity, and the signal needs no NaN padding. -/
def calculateMACD (prices : List ℝ) (fastPeriod slowPeriod signalPeriod : ℕ) :
    MACDResult :=
  let fastEMA := calculateEMA prices fastPeriod
  let slowEMA := calculateEMA prices slowPeriod
  let macd := List.zipWith (fun a b => a - b) fastEMA slowEMA
  let signal := calculateEMA macd signalPeriod
  let histogram := List.zipWith (fun a b => a - b) macd signal
  { macd := macd, signal := signal, histogram := histogram }

structure BollingerBands where
  upper : List (Option ℝ)
  middle : List (Option ℝ)
  lower : List (Option ℝ)

/-- calculateBollingerBands: NaN before the first full window; afterwards
    the window mean (which is what the sma entry at i holds) plus and
    minus stdDev population standard deviations of the window. -/
def calculateBollingerBands (prices : List ℝ) (period : ℕ) (stdDev : ℝ) :
    BollingerBands :=
  let bandAt := fun (i : ℕ) =>
    if i < period - 1 then none
    else
      let slice := (prices.drop (i + 1 - period)).take period
      let mean := slice.sum / (period : ℝ)
      let variance := (slice.map (fun p => (p - mean) ^ 2)).sum / (period : ℝ)
      let standardDeviation := Real.sqrt variance
      some (mean, standardDeviation)
  { upper := (List.range prices.length).map fun i =>
      (bandAt i).map (fun ms => ms.1 + ms.2 * stdDev)
    middle := (List.range prices.length).map fun i => (bandAt i).map (·.1)
    lower := (List.range prices.length).map fun i =>
      (bandAt i).map (fun ms => ms.1 - ms.2 * stdDev) }

/-- calculateSupportResistance: scan for windowed local extrema, seeded
    with the first high and low (the caller guarantees candles exist). -/
def calculateSupportResistance (klines : List KlineR) : ℝ × ℝ :=
  let highs := klines.map (·.highPrice)
  let lows := klines.map (·.lowPrice)
  let window := klines.length / 10
  let idxs := (List.range highs.length).filter
    (fun i => decide (window ≤ i) && decide (i + window < highs.length))
  idxs.foldl
    (fun (sr : ℝ × ℝ) i =>
      let hi := highs.getD i 0
      let lo := lows.getD i 0
      let hslice := (highs.drop (i - window)).take (2 * window + 1)
      let lslice := (lows.drop (i - window)).take (2 * window + 1)
      let isLocalMax := (List.range hslice.length).all
        (fun idx => decide (idx = window) || decide (hslice.getD idx 0 ≤ hi))
      let isLocalMin := (List.range lslice.length).all
        (fun idx => decide (idx = window) || decide (lo ≤ lslice.getD idx 0))
      let resistance := if isLocalMax && decide (sr.2 < hi) then hi else sr.2
      let support := if isLocalMin && decide (lo < sr.1) then lo else sr.1
      (support, resistance))
    (lows.headD 0, highs.headD 0)

/-- getCurrentPrice: the close of the last candle. -/
def getCurrentPrice (klines : List KlineR) : ℝ :=
  (klines.map (·.closePrice)).getLastD 0

/-- calculateAverageVolume over the last period candles. -/
def calculateAverageVolume (klines : List KlineR) (period : ℕ) : ℝ :=
  if klines.length = 0 then 0
  else
    let recent := klines.drop (klines.length - period)
    (recent.map (·.volume)).sum / (recent.length : ℝ)

/-- PairScorer.scoreRSI; a NaN reading scores the neutral 50. -/
def scoreRSI (rsi : Option ℝ) : ℝ :=
  match rsi with
  | none => 50
  | some r =>
    if r < 30 then 30 + (30 - r) / 30 * 40
    else if 70 < r then 70 - (r - 70) / 30 * 40
    else 60

/-- PairScorer.scoreMACD on the last macd, signal and histogram entries
    (an out-of-range previous histogram entry reads as zero). -/
def scoreMACD (m : MACDResult) : ℝ :=
  match m.macd.getLast?, m.signal.getLast? with
  | some lastMacd, some lastSignal =>
    let lastHistogram := m.histogram.getLastD 0
    let prevHistogram :=
      if m.histogram.length < 2 then 0
      else m.histogram.getD (m.histogram.length - 2) 0
    if lastSignal < lastMacd ∧ prevHistogram < lastHistogram then 80
    else if lastMacd < lastSignal then 30
    else 50
  | _, _ => 50

/-- PairScorer.scoreBollinger: position of the price inside the band. -/
def scoreBollinger (price : ℝ) (bands : BollingerBands) : ℝ :=
  match bands.upper.getLastD none, bands.lower.getLastD none with
  | some lastUpper, some lastLower =>
    let bandWidth := lastUpper - lastLower
    if bandWidth = 0 then 50
    else
      let distanceFromLower := (price - lastLower) / bandWidth
      if distanceFromLower < 0.2 then 80 - distanceFromLower * 100
      else if 0.8 < distanceFromLower then 20 + (1 - distanceFromLower) * 30
      else 50
  | _, _ => 50

/-- PairScorer.scoreVolume: the ratio of current to average volume. -/
def scoreVolume (currentVolume avgVolume : ℝ) : ℝ :=
  if avgVolume = 0 then 50
  else
    let ratio := currentVolume / avgVolume
    if 2 ≤ ratio then 100
    else if 1.5 ≤ ratio then 80
    else if 1 ≤ ratio then 60
    else if 0.5 ≤ ratio then 40
    else 20

/-- PairScorer.scoreMomentum: price against the moving averages. -/
def scoreMomentum (prices : List ℝ) (sma20 : List (Option ℝ))
    (ema50 : List ℝ) : ℝ :=
  let currentPrice := prices.getLastD 0
  match sma20.getLastD none, ema50.getLast? with
  | some lastSma20, some lastEma50 =>
    let score : ℝ := 50 +
      (if lastSma20 < currentPrice then 20 else 0) +
      (if lastEma50 < currentPrice then 20 else 0) +
      (if lastEma50 < lastSma20 then 10 else 0)
    min 100 score
  | _, _ => 50

/-- PairScorer.scoreVolatility: position of the price between support and
    resistance. -/
def scoreVolatility (prices : List ℝ) (support resistance currentPrice : ℝ) :
    ℝ :=
  if resistance = support then 50
  else
    let range := resistance - support
    let positionInRange := (currentPrice - support) / range
    if positionInRange < 0.3 then 70
    else if 0.7 < positionInRange then 30
    else 60

structure PairFactors where
  rsi : ℝ
  macd : ℝ
  bollinger : ℝ
  volume : ℝ
  momentum : ℝ
  volatility : ℝ

structure PairScoreR where
  score : ℝ
  factors : PairFactors

/-- The all-zero score returned for empty data and for a thrown fetch. -/
def zeroPairScore : PairScoreR :=
  { score := 0
    factors := { rsi := 0, macd := 0, bollinger := 0, volume := 0
                 momentum := 0, volatility := 0 } }

/-- The six sub-scores of PairScorer.scorePair on fetched candles. -/
def pairFactors (klines : List KlineR) : PairFactors :=
  let prices := klines.map (·.closePrice)
  let currentPrice := getCurrentPrice klines
  let rsi := calculateRSI prices 14
  let macd := calculateMACD prices 12 26 9
  let bollinger := calculateBollingerBands prices 20 2
  let sma20 := calculateSMA prices 20
  let ema50 := calculateEMA prices 50
  let sr := calculateSupportResistance klines
  let avgVolume := calculateAverageVolume klines 20
  let currentVolume := (klines.map (·.volume)).getLastD 0
  { rsi := scoreRSI (rsi.getLastD none)
    macd := scoreMACD macd
    bollinger := scoreBollinger currentPrice bollinger
    volume := scoreVolume currentVolume avgVolume
    momentum := scoreMomentum prices sma20 ema50
    volatility := scoreVolatility prices sr.1 sr.2 currentPrice }

/-- The fixed weights of the composite score. -/
def weightedScore (factors : PairFactors) : ℝ :=
  factors.rsi * 0.15 + factors.macd * 0.2 + factors.bollinger * 0.15 +
  factors.volume * 0.15 + factors.momentum * 0.2 + factors.volatility * 0.15

/-- PairScorer.scorePair on fetched candles: six sub-scores combined with
    the fixed weights. -/
def scorePairOk (klines : List KlineR) : PairScoreR :=
  if klines.length = 0 then zeroPairScore
  else
    { score := weightedScore (pairFactors klines), factors := pairFactors klines }

/-- PairScorer.scorePair: a thrown kline fetch is caught and scores zero
    with all-zero factors, as does an empty kline response. -/
def scorePair (fetchedKlines : Except String (List KlineR)) : PairScoreR :=
  match fetchedKlines with
  | .error _ => zeroPairScore
  | .ok klines => scorePairOk klines

end

/-! # Theorems -/

/-! ## C10: BaseStrategy.start on an already active strategy -/

/-- C10: calling start on an already active strategy throws the error
    Strategy is already active without running the subclass
    initialization and without writing either flag, and the stopped to
    active transition happens only from the inactive state. -/
theorem start_already_active_throws (initRes : Except String Unit)
    (st : LifecycleState) (h : st.isActive = true) :
    startStrategy initRes st =
      (.error "Strategy is already active", ⟨false, false⟩) ∧
    (∀ initRes' st' newSt eff,
      startStrategy initRes' st' = (.ok newSt, eff) →
      st'.isActive = false ∧ newSt.isActive = true) := by
  refine ⟨by simp [startStrategy, h], ?_⟩
  intro initRes' st' newSt eff hrun
  cases hact : st'.isActive with
  | false =>
    refine ⟨rfl, ?_⟩
    cases initRes' with
    | error e => simp [startStrategy, hact] at hrun
    | ok u =>
      simp only [startStrategy, hact, Bool.false_eq_true, if_false,
        Prod.mk.injEq, Except.ok.injEq] at hrun
      rw [← hrun.1]
  | true => simp [startStrategy, hact] at hrun

/-- C10 witness: the theorem applied to a concrete active state. -/
theorem start_already_active_throws_witness :
    startStrategy (.ok ()) ⟨true, true⟩ =
      (.error "Strategy is already active", ⟨false, false⟩) :=
  (start_already_active_throws (.ok ()) ⟨true, true⟩ rfl).1

/-! ## C2: saveTrade refuses non-positive prices -/

/-- C2: saveTrade with a non-positive or non-finite price always fails
    with the refusal error, and the trades table is unchanged: no row is
    inserted by that call. -/
theorem saveTrade_rejects_nonpositive_price (strategyId : String)
    (td : TradeData) (trades : List TradeRow)
    (h : NonPosOrNonFinite td.price) :
    saveTrade strategyId td trades =
      .error "Refuse to save trade with non-positive price" ∧
    tradesAfterSave strategyId td trades = trades := by
  have hbad : invalidTradePrice td.price = true := by
    cases hp : td.price with
    | fin q =>
      rw [hp] at h
      simp only [NonPosOrNonFinite] at h
      simp [invalidTradePrice, JNum.le0, h]
    | nan => simp [invalidTradePrice, JNum.truthy]
    | inf => simp [invalidTradePrice, JNum.isFinite]
    | ninf => simp [invalidTradePrice, JNum.isFinite]
  exact ⟨by simp [saveTrade, hbad], by simp [tradesAfterSave, saveTrade, hbad]⟩

/-- C2 witness: a trade priced at zero is refused and nothing is stored. -/
theorem saveTrade_rejects_nonpositive_price_witness :
    saveTrade "s1"
      { positionId := none, symbol := "BTCUSDT", side := .buy
        orderType := .market, quantity := .fin 1, price := .fin 0
        fee := .fin 0, feeAsset := "USDT", pnl := none, pnlPercent := none
        binanceOrderId := none, status := "FILLED" } [] =
      .error "Refuse to save trade with non-positive price" ∧
    tradesAfterSave "s1"
      { positionId := none, symbol := "BTCUSDT", side := .buy
        orderType := .market, quantity := .fin 1, price := .fin 0
        fee := .fin 0, feeAsset := "USDT", pnl := none, pnlPercent := none
        binanceOrderId := none, status := "FILLED" } [] = [] :=
  saveTrade_rejects_nonpositive_price "s1" _ [] (by norm_num [NonPosOrNonFinite])

/-! ## C5: the execution loop isolates per-strategy failures -/

/-- The executeAll fold appends the invoked ids and the emitted events. -/
theorem executeAll_foldl_spec (l : List ManagedStrategy)
    (a : List String) (b : List ManagerEvent) :
    l.foldl (fun acc s => (acc.1 ++ [s.id], acc.2 ++ executeAllStep s)) (a, b) =
      (a ++ l.map (·.id), b ++ (l.map executeAllStep).join) := by
  induction l generalizing a b with
  | nil => simp
  | cons s l ih => simp [ih, List.append_assoc]

/-- C5: every active strategy is invoked in the tick, in order, no matter
    whether another strategy throws; a thrown execute emits an error event
    for that strategy and the loop runs to completion. -/
theorem executeAll_isolates_failures (strategies : List ManagedStrategy) :
    (executeAll strategies).1 = (strategies.filter (·.active)).map (·.id) ∧
    (∀ s ∈ strategies.filter (·.active), s.execRes = none →
      .errored s.id ∈ (executeAll strategies).2) := by
  have hfold := executeAll_foldl_spec (strategies.filter (·.active)) [] []
  constructor
  · simp [executeAll, hfold]
  · intro s hs hnone
    have hact : s.active = true := by
      simpa using (List.mem_filter.mp hs).2
    have hstep : ManagerEvent.errored s.id ∈ executeAllStep s := by
      simp [executeAllStep, executeStrategy, hact, hnone]
    simp only [executeAll, hfold, List.nil_append]
    exact List.mem_join.mpr ⟨executeAllStep s, List.mem_map_of_mem _ hs, hstep⟩

/-- C5 witness: with the first strategy throwing, the second is still
    invoked and the error event is emitted. -/
theorem executeAll_isolates_failures_witness :
    (executeAll [⟨"a", true, none⟩, ⟨"b", true, some true⟩]).1 = ["a", "b"] ∧
    .errored "a" ∈ (executeAll [⟨"a", true, none⟩, ⟨"b", true, some true⟩]).2 := by
  constructor
  · simpa using
      (executeAll_isolates_failures [⟨"a", true, none⟩, ⟨"b", true, some true⟩]).1
  · exact (executeAll_isolates_failures _).2 ⟨"a", true, none⟩ (by simp) rfl

/-! ## C6: the trailing stop only ratchets upward -/

/-- One trailing stop update never lowers the effective stored stop. -/
theorem updateTrailingStop_storedStop_le (tsp : Option ℚ)
    (position : Option TrailPosition) (currentPrice : ℚ) :
    storedStop position ≤
      storedStop (updateTrailingStop tsp position currentPrice) := by
  cases position with
  | none => simp [updateTrailingStop]
  | some p =>
    cases hopen : p.isOpen with
    | false => simp [updateTrailingStop, hopen]
    | true =>
      cases tsp with
      | none => simp [updateTrailingStop, hopen]
      | some t =>
        by_cases ht : t = 0
        · simp [updateTrailingStop, hopen, ht]
        · by_cases hprofit : 0 < (currentPrice - p.entryPrice) / p.entryPrice * 100
          · by_cases hmove : p.stopLoss.getD 0 < currentPrice * (1 - t / 100)
            · have heq : updateTrailingStop (some t) (some p) currentPrice =
                  some { p with stopLoss := some (currentPrice * (1 - t / 100)) } := by
                simp [updateTrailingStop, hopen, ht, hprofit, hmove]
              rw [heq]
              simpa [storedStop] using le_of_lt hmove
            · simp [updateTrailingStop, hopen, ht, hprofit, hmove]
          · simp [updateTrailingStop, hopen, ht, hprofit]

/-- C6: the stored stop is non-decreasing: a single update either leaves
    the row unchanged or strictly raises the stop, no update happens out
    of profit, and over any price sequence the stored stop never moves
    down. -/
theorem updateTrailingStop_ratchets (tsp : Option ℚ)
    (position : Option TrailPosition) (currentPrice : ℚ) :
    storedStop position ≤
      storedStop (updateTrailingStop tsp position currentPrice) ∧
    (updateTrailingStop tsp position currentPrice = position ∨
      ∃ p v, position = some p ∧ storedStop position < v ∧
        updateTrailingStop tsp position currentPrice =
          some { p with stopLoss := some v }) ∧
    (∀ p, position = some p → p.isOpen = true →
      (currentPrice - p.entryPrice) / p.entryPrice * 100 ≤ 0 →
      updateTrailingStop tsp position currentPrice = position) ∧
    (∀ prices, storedStop position ≤
      storedStop (runTrailingUpdates tsp position prices)) := by
  refine ⟨updateTrailingStop_storedStop_le tsp position currentPrice, ?_, ?_, ?_⟩
  · cases position with
    | none => left; rfl
    | some p =>
      cases hopen : p.isOpen with
      | false => left; simp [updateTrailingStop, hopen]
      | true =>
        cases tsp with
        | none => left; simp [updateTrailingStop, hopen]
        | some t =>
          by_cases ht : t = 0
          · left; simp [updateTrailingStop, hopen, ht]
          · by_cases hprofit :
              0 < (currentPrice - p.entryPrice) / p.entryPrice * 100
            · by_cases hmove :
                p.stopLoss.getD 0 < currentPrice * (1 - t / 100)
              · right
                refine ⟨p, currentPrice * (1 - t / 100), rfl, ?_, ?_⟩
                · simpa [storedStop] using hmove
                · simp [updateTrailingStop, hopen, ht, hprofit, hmove]
              · left; simp [updateTrailingStop, hopen, ht, hprofit, hmove]
            · left; simp [updateTrailingStop, hopen, ht, hprofit]
  · intro p hp hopen hloss
    subst hp
    have hnot : ¬ 0 < (currentPrice - p.entryPrice) / p.entryPrice * 100 :=
      not_lt.mpr hloss
    cases tsp with
    | none => simp [updateTrailingStop, hopen]
    | some t =>
      by_cases ht : t = 0
      · simp [updateTrailingStop, hopen, ht]
      · simp [updateTrailingStop, hopen, ht, hnot]
  · intro prices
    induction prices generalizing position with
    | nil => simp [runTrailingUpdates]
    | cons price rest ih =>
      calc storedStop position ≤
          storedStop (updateTrailingStop tsp position price) :=
            updateTrailingStop_storedStop_le tsp position price
        _ ≤ storedStop (runTrailingUpdates tsp
              (updateTrailingStop tsp position price) rest) := ih _
        _ = storedStop (runTrailingUpdates tsp position (price :: rest)) := by
            simp [runTrailingUpdates]

/-- C6 witness: out of profit nothing changes; a profitable price raises
    the stop. -/
theorem updateTrailingStop_ratchets_witness :
    updateTrailingStop (some 2) (some ⟨true, 100, some 95⟩) 99 =
      some ⟨true, 100, some 95⟩ ∧
    storedStop (some ⟨true, 100, some 95⟩) ≤
      storedStop (updateTrailingStop (some 2) (some ⟨true, 100, some 95⟩) 110) := by
  constructor
  · exact (updateTrailingStop_ratchets (some 2) (some ⟨true, 100, some 95⟩)
      99).2.2.1 ⟨true, 100, some 95⟩ rfl rfl (by norm_num)
  · exact (updateTrailingStop_ratchets (some 2) (some ⟨true, 100, some 95⟩)
      110).1

/-! ## C7: backtest window validation -/

/-- C7: runBacktest rejects a window whose end is not after its start,
    a window over 365 days, and an end in the future, each with its own
    distinct reason, and performs no fetch, no simulation and no save in
    all three cases. -/
theorem runBacktest_rejects_invalid_windows (env : BacktestEnv)
    (config : BacktestConfig) (now : ℤ) :
    (config.endDate ≤ config.startDate →
      runBacktest env config now =
        (.error "Start date must be before end date", ⟨false, false, false⟩)) ∧
    (config.startDate < config.endDate →
      365 * 86400000 < config.endDate - config.startDate →
      runBacktest env config now =
        (.error "Date range cannot exceed 365 days", ⟨false, false, false⟩)) ∧
    (config.startDate < config.endDate →
      config.endDate - config.startDate ≤ 365 * 86400000 →
      now < config.endDate →
      runBacktest env config now =
        (.error "End date cannot be in the future", ⟨false, false, false⟩)) ∧
    ("Start date must be before end date" ≠ "Date range cannot exceed 365 days" ∧
      "Start date must be before end date" ≠ "End date cannot be in the future" ∧
      "Date range cannot exceed 365 days" ≠ "End date cannot be in the future") := by
  refine ⟨?_, ?_, ?_, by decide, by decide, by decide⟩
  · intro h
    simp [runBacktest, validateDateRange, h]
  · intro h1 h2
    have hq : (365 : ℚ) <
        ((config.endDate : ℚ) - (config.startDate : ℚ)) / (1000 * 60 * 60 * 24) := by
      rw [lt_div_iff₀ (by norm_num : (0 : ℚ) < 1000 * 60 * 60 * 24)]
      have h2q : ((365 * 86400000 : ℤ) : ℚ) <
          ((config.endDate - config.startDate : ℤ) : ℚ) := Int.cast_lt.mpr h2
      push_cast at h2q ⊢
      linarith
    simp [runBacktest, validateDateRange, not_le.mpr h1, hq]
  · intro h1 h2 h3
    have hq : ¬ ((365 : ℚ) <
        ((config.endDate : ℚ) - (config.startDate : ℚ)) / (1000 * 60 * 60 * 24)) := by
      rw [not_lt, div_le_iff₀ (by norm_num : (0 : ℚ) < 1000 * 60 * 60 * 24)]
      have h2q : ((config.endDate - config.startDate : ℤ) : ℚ) ≤
          ((365 * 86400000 : ℤ) : ℚ) := Int.cast_le.mpr h2
      push_cast at h2q ⊢
      linarith
    simp [runBacktest, validateDateRange, not_le.mpr h1, hq, h3]

/-! ## C1: checkTradeRisk evaluates its checks in fixed order -/

/-- C1: the risk checks run in fixed order with short-circuit, so a
    request violating both the position-size and the concurrent-position
    limits is denied with the position-size reason; the concurrent check
    would also have denied it; the correlation check flags but never
    blocks; and any position-size denial is returned unchanged whatever
    the later checks would say. -/
theorem checkTradeRisk_first_check_wins (env : RiskEnv) (symbol : String)
    (quantity price : ℚ) (side : Side) (b : Balance)
    (hbal : env.balance = some b) (hb : b.total ≠ 0)
    (hsize : env.limits.maxPositionSizePercent <
      quantity * price / b.total * 100)
    (hconc : env.limits.maxConcurrentPositions ≤
      (env.positions.filter (·.isOpen)).length) :
    checkTradeRisk env symbol quantity price side =
      ⟨false, some (.positionSizeExceeded (quantity * price / b.total * 100)
        env.limits.maxPositionSizePercent), .high⟩ ∧
    checkConcurrentPositions env =
      ⟨false, some (.maxConcurrentPositions env.limits.maxConcurrentPositions),
        .high⟩ ∧
    (∀ env' symbol', (checkCorrelation env' symbol').allowed = true) ∧
    (∀ env' symbol' q' p' side',
      (checkPositionSize env' q' p').allowed = false →
      checkTradeRisk env' symbol' q' p' side' = checkPositionSize env' q' p') := by
  have hps : checkPositionSize env quantity price =
      ⟨false, some (.positionSizeExceeded (quantity * price / b.total * 100)
        env.limits.maxPositionSizePercent), .high⟩ := by
    simp [checkPositionSize, hbal, hb, hsize]
  refine ⟨?_, ?_, ?_, ?_⟩
  · simp [checkTradeRisk, hps]
  · simp [checkConcurrentPositions, hconc]
  · intro env' symbol'
    simp only [checkCorrelation]
    split
    · split <;> rfl
    · rfl
  · intro env' symbol' q' p' side' hfail
    simp [checkTradeRisk, hfail]

/-- C1 witness: a request breaking both limits at a concrete state is
    denied with the position-size reason. -/
theorem checkTradeRisk_first_check_wins_witness :
    checkTradeRisk
      ⟨some ⟨100, 0, 100⟩, [], [], ⟨10, 5, 10, 10, 0⟩⟩ "ETHUSDT" 1 20 .buy =
      ⟨false, some (.positionSizeExceeded 20 10), .high⟩ := by
  have h := (checkTradeRisk_first_check_wins
    ⟨some ⟨100, 0, 100⟩, [], [], ⟨10, 5, 10, 10, 0⟩⟩ "ETHUSDT" 1 20 .buy
    ⟨100, 0, 100⟩ rfl (by norm_num) (by norm_num) (by simp)).1
  norm_num at h
  exact h

/-! ## C3: order reconciliation priority -/

/-- The two-fill example evaluates to the weighted average locally. -/
theorem extract_two_fills_example :
    extractExecutedFromResult
      ⟨none, none, some [⟨100, 1, 0, "USDT"⟩, ⟨102, 1, 0, "USDT"⟩],
        some 1, some "BTCUSDT"⟩ = (101, 2) := by
  simp [extractExecutedFromResult]
  norm_num

/-- C3: reconciliation prefers the quantity-weighted fill average and the
    summed quantity, falls back to the reported price, and queries the
    exchange only when the local result is invalid, deriving the queried
    price as cummulativeQuoteQty over executedQty; the two-fill example
    reconciles to price 101 and quantity 2 with no exchange call. -/
theorem reconciliation_priority :
    (extractExecutedFromResult
      ⟨none, none, some [⟨100, 1, 0, "USDT"⟩, ⟨102, 1, 0, "USDT"⟩],
        some 1, some "BTCUSDT"⟩ = (101, 2) ∧
      ∀ g, resolveExecutedFromExchange
        ⟨none, none, some [⟨100, 1, 0, "USDT"⟩, ⟨102, 1, 0, "USDT"⟩],
          some 1, some "BTCUSDT"⟩ g = ((101, 2), false)) ∧
    (∀ r g, (resolveExecutedFromExchange r g).2 = true →
      ¬(0 < (extractExecutedFromResult r).1 ∧
        0 < (extractExecutedFromResult r).2)) ∧
    (∀ (r : ExecutedLike) fills, r.fills = some fills →
      0 < (fills.map (·.qty)).sum →
      0 < (fills.map (fun f => f.price * f.qty)).sum / (fills.map (·.qty)).sum →
      extractExecutedFromResult r =
        ((fills.map (fun f => f.price * f.qty)).sum / (fills.map (·.qty)).sum,
          (fills.map (·.qty)).sum)) ∧
    (∀ (r : ExecutedLike) p, r.fills = none → r.price = some p → 0 < p →
      (extractExecutedFromResult r).1 = p) ∧
    (∀ (r : ExecutedLike) eq cqq,
      ¬(0 < (extractExecutedFromResult r).1 ∧
        0 < (extractExecutedFromResult r).2) →
      r.symbol ≠ none → r.orderId ≠ none → 0 < eq → 0 < cqq →
      resolveExecutedFromExchange r (some ⟨some eq, some cqq⟩) =
        ((cqq / eq, eq), true)) := by
  refine ⟨⟨extract_two_fills_example, ?_⟩, ?_, ?_, ?_, ?_⟩
  · intro g
    simp [resolveExecutedFromExchange, extract_two_fills_example]
  · intro r g hflag
    by_cases hvalid : 0 < (extractExecutedFromResult r).1 ∧
        0 < (extractExecutedFromResult r).2
    · exfalso
      simp [resolveExecutedFromExchange, hvalid] at hflag
    · exact hvalid
  · intro r fills hf htq havg
    have hne : fills ≠ [] := by
      rintro rfl
      simp at htq
    simp [extractExecutedFromResult, hf, hne, htq, not_le.mpr havg,
      not_le.mpr htq]
  · intro r p hfills hp hppos
    simp [extractExecutedFromResult, hfills, hp, hppos]
  · intro r eq cqq hinvalid hsym hord heq hcqq
    have hcond : ¬ (r.symbol = none ∨ r.orderId = none) := by
      push_neg
      exact ⟨hsym, hord⟩
    have hne1 : cqq / eq ≠ 0 := div_ne_zero (ne_of_gt hcqq) (ne_of_gt heq)
    simp [resolveExecutedFromExchange, hinvalid, hcond, jsOr, heq, hcqq,
      hne1, ne_of_gt heq]

/-- C3 witness: an order with no fills and no reported price resolves
    through the exchange as cummulativeQuoteQty over executedQty. -/
theorem reconciliation_priority_witness :
    resolveExecutedFromExchange ⟨none, none, none, some 5, some "BTCUSDT"⟩
      (some ⟨some 2, some 202⟩) = ((101, 2), true) ∧
    extractExecutedFromResult
      ⟨none, none, some [⟨100, 1, 0, "USDT"⟩, ⟨102, 1, 0, "USDT"⟩],
        some 1, some "BTCUSDT"⟩ = (101, 2) := by
  constructor
  · have h := reconciliation_priority.2.2.2.2
      ⟨none, none, none, some 5, some "BTCUSDT"⟩ 2 202
      (by norm_num [extractExecutedFromResult]) (by simp) (by simp)
      (by norm_num) (by norm_num)
    norm_num at h
    exact h
  · exact reconciliation_priority.1.1

/-! ## C4: the monitor sweep at stop-loss and take-profit breaches -/

/-- C4 evidence: at a take-profit breach the sweep places the market exit
    and closes the position (isOpen false, closedAt set), but it inserts
    no trade row; the same sweep at a stop-loss breach does insert one.
    The take-profit path therefore does not record a trade the way a
    strategy exit would. -/
theorem monitor_takeProfit_records_no_trade :
    (checkAndExecuteStopLosses
      ⟨fun _ => some 111,
        fun _ _ => some ⟨7, [⟨111, 1, 0, "BTC"⟩], some 111, some 1⟩, none⟩
      ⟨[⟨"p1", "s1", "BTCUSDT", 1, 100, some 90, some 110, some 100, some 0,
          some 0, true, false⟩], []⟩).trades = [] ∧
    ((checkAndExecuteStopLosses
      ⟨fun _ => some 111,
        fun _ _ => some ⟨7, [⟨111, 1, 0, "BTC"⟩], some 111, some 1⟩, none⟩
      ⟨[⟨"p1", "s1", "BTCUSDT", 1, 100, some 90, some 110, some 100, some 0,
          some 0, true, false⟩], []⟩).positions.map
        (fun p => (p.isOpen, p.closedAt))) = [(false, true)] ∧
    (checkAndExecuteStopLosses
      ⟨fun _ => some 89,
        fun _ _ => some ⟨7, [⟨89, 1, 0, "BTC"⟩], some 89, some 1⟩, none⟩
      ⟨[⟨"p1", "s1", "BTCUSDT", 1, 100, some 90, some 110, some 100, some 0,
          some 0, true, false⟩], []⟩).trades.length = 1 := by
  refine ⟨?_, ?_, ?_⟩ <;>
    · simp only [checkAndExecuteStopLosses, sweepPosition, sweepCheckTakeProfit,
        executeTakeProfit, executeStopLoss, monitorExecutedPrice,
        extractExecutedFromResult, OrderResult.toExecutedLike, setPosition,
        updateUnrealized, List.filter, List.foldl, List.find?]
      norm_num

/-! ## C9: decimal string normalization -/

theorem fracVal_nil : fracVal [] = 0 := rfl

theorem fracVal_cons (d : ℕ) (l : List ℕ) :
    fracVal (d :: l) = ((d : ℚ) + fracVal l) / 10 := rfl

theorem fracVal_append_zero (l : List ℕ) : fracVal (l ++ [0]) = fracVal l := by
  induction l with
  | nil => norm_num [fracVal]
  | cons d l ih => rw [List.cons_append, fracVal_cons, fracVal_cons, ih]

theorem fracVal_dropWhile_reverse (r : List ℕ) :
    fracVal ((r.dropWhile (fun d => d == 0)).reverse) = fracVal r.reverse := by
  induction r with
  | nil => rfl
  | cons d r ih =>
    rw [List.dropWhile_cons]
    by_cases hd : d = 0
    · subst hd
      simp only [beq_self_eq_true, if_true]
      rw [ih, List.reverse_cons, fracVal_append_zero]
    · simp [hd]

theorem fracVal_stripTrailingZeros (l : List ℕ) :
    fracVal (stripTrailingZeros l) = fracVal l := by
  have h := fracVal_dropWhile_reverse l.reverse
  rw [List.reverse_reverse] at h
  simpa [stripTrailingZeros] using h

theorem digitsBE_length (k m : ℕ) : (digitsBE k m).length = k := by
  induction k generalizing m with
  | zero => rfl
  | succ k ih => simp [digitsBE, ih]

theorem fracVal_append_singleton (l : List ℕ) (d : ℕ) :
    fracVal (l ++ [d]) = fracVal l + (d : ℚ) / 10 ^ (l.length + 1) := by
  induction l with
  | nil => norm_num [fracVal]
  | cons a l ih =>
    rw [List.cons_append, fracVal_cons, fracVal_cons, ih, List.length_cons]
    ring

theorem fracVal_digitsBE (k m : ℕ) (h : m < 10 ^ k) :
    fracVal (digitsBE k m) = (m : ℚ) / 10 ^ k := by
  induction k generalizing m with
  | zero =>
    have hm : m = 0 := Nat.lt_one_iff.mp (by simpa using h)
    subst hm
    simp [digitsBE, fracVal]
  | succ k ih =>
    have hdiv : m / 10 < 10 ^ k := by
      rw [Nat.div_lt_iff_lt_mul (by norm_num)]
      calc m < 10 ^ (k + 1) := h
        _ = 10 ^ k * 10 := by ring
    rw [digitsBE, fracVal_append_singleton, ih _ hdiv, digitsBE_length]
    have key : m / 10 * 10 + m % 10 = m := by omega
    have key' := congrArg (fun x : ℕ => (x : ℚ)) key
    push_cast at key'
    rw [← key']
    field_simp
    ring

theorem dropWhile_head_ne_zero (r : List ℕ) :
    (r.dropWhile (fun d => d == 0)).head? ≠ some 0 := by
  induction r with
  | nil => simp
  | cons d r ih =>
    rw [List.dropWhile_cons]
    by_cases hd : d = 0
    · simpa [hd] using ih
    · simp [hd]

theorem stripTrailingZeros_no_trailing_zero (l : List ℕ) :
    (stripTrailingZeros l).getLast? ≠ some 0 := by
  have h := dropWhile_head_ne_zero l.reverse
  simpa [stripTrailingZeros, List.getLast?_reverse] using h

theorem dropWhile_length_le (p : ℕ → Bool) (l : List ℕ) :
    (l.dropWhile p).length ≤ l.length := by
  induction l with
  | nil => simp
  | cons a l ih =>
    rw [List.dropWhile_cons]
    by_cases h : p a
    · rw [if_pos h]
      exact le_trans ih (by simp)
    · rw [if_neg h]

theorem stripTrailingZeros_length_le (l : List ℕ) :
    (stripTrailingZeros l).length ≤ l.length := by
  simp only [stripTrailingZeros, List.length_reverse]
  calc (l.reverse.dropWhile (fun d => d == 0)).length ≤ l.reverse.length :=
        dropWhile_length_le _ _
    _ = l.length := List.length_reverse l

/-- The formatted value is exactly the rounded value over ten to the 8. -/
theorem toDbNumberString_val (q : ℚ) :
    (toDbNumberString (.fin q)).val =
      ((jsRound (q * 10 ^ 8) : ℤ) : ℚ) / 10 ^ 8 := by
  set n := jsRound (q * 10 ^ 8) with hn
  have hmod : n.natAbs % 10 ^ 8 < 10 ^ 8 := Nat.mod_lt _ (by norm_num)
  simp only [toDbNumberString, DecString.val, ← hn]
  rw [fracVal_stripTrailingZeros, fracVal_digitsBE 8 _ hmod]
  have habs : ((n.natAbs / 10 ^ 8 : ℕ) : ℚ) + ((n.natAbs % 10 ^ 8 : ℕ) : ℚ) / 10 ^ 8 =
      (n.natAbs : ℚ) / 10 ^ 8 := by
    have key : n.natAbs / 10 ^ 8 * 10 ^ 8 + n.natAbs % 10 ^ 8 = n.natAbs := by
      omega
    have key' := congrArg (fun x : ℕ => (x : ℚ)) key
    push_cast at key'
    field_simp
    linarith [key']
  rw [habs]
  rcases lt_or_le n 0 with hneg | hpos
  · have hq : (n.natAbs : ℚ) = -(n : ℚ) := by
      rw [Int.cast_natAbs, abs_of_neg hneg]
      push_cast
      ring
    rw [hq]
    simp only [decide_eq_true_eq]
    rw [if_pos hneg]
    ring
  · have hq : (n.natAbs : ℚ) = (n : ℚ) := by
      rw [Int.cast_natAbs, abs_of_nonneg hpos]
    rw [hq]
    simp only [decide_eq_true_eq]
    rw [if_neg (not_lt.mpr hpos)]
    ring

/-- The formatted value is within half an ulp of the original. -/
theorem toDbNumberString_val_close (q : ℚ) :
    |(toDbNumberString (.fin q)).val - q| < 1 / 10 ^ 8 := by
  rw [toDbNumberString_val]
  have heq : ((jsRound (q * 10 ^ 8) : ℤ) : ℚ) / 10 ^ 8 - q =
      (((round (q * 10 ^ 8) : ℤ) : ℚ) - q * 10 ^ 8) / 10 ^ 8 := by
    simp only [jsRound]
    ring
  rw [heq, abs_div, abs_of_pos (by norm_num : (0 : ℚ) < 10 ^ 8)]
  have h := abs_sub_round (q * 10 ^ 8)
  rw [abs_sub_comm] at h
  have hle : |((round (q * 10 ^ 8) : ℤ) : ℚ) - q * 10 ^ 8| / 10 ^ 8 ≤
      (1 / 2) / 10 ^ 8 :=
    div_le_div_of_le (by norm_num) h
  exact lt_of_le_of_lt hle (by norm_num)

theorem digitChar_mem (d : ℕ) :
    digitChar d ∈ ['-', '.', '0', '1', '2', '3', '4', '5', '6', '7', '8', '9'] := by
  rcases d with _|_|_|_|_|_|_|_|_|d
  · decide
  · decide
  · decide
  · decide
  · decide
  · decide
  · decide
  · decide
  · decide
  · show '9' ∈ _
    decide

/-- Rendering uses only a sign, digits and one decimal point: no
    scientific notation can appear. -/
theorem render_chars (d : DecString) :
    ∀ c ∈ (DecString.render d).data,
      c ∈ ['-', '.', '0', '1', '2', '3', '4', '5', '6', '7', '8', '9'] := by
  intro c hc
  have hc' : c ∈ (if d.neg then ['-'] else []) ++
      (if d.intPart = 0 then [0] else natDigits d.intPart).map digitChar ++
      (if d.frac.isEmpty then [] else '.' :: d.frac.map digitChar) := hc
  rcases List.mem_append.mp hc' with h12 | h3
  · rcases List.mem_append.mp h12 with h1 | h2
    · by_cases hneg : d.neg
      · rw [if_pos hneg] at h1
        have : c = '-' := by simpa using h1
        subst this
        decide
      · rw [if_neg hneg] at h1
        simp at h1
    · rcases List.mem_map.mp h2 with ⟨dig, _, rfl⟩
      exact digitChar_mem dig
  · by_cases hemp : d.frac.isEmpty
    · rw [if_pos hemp] at h3
      simp at h3
    · rw [if_neg hemp] at h3
      rcases List.mem_cons.mp h3 with h3 | h3
      · subst h3
        decide
      · rcases List.mem_map.mp h3 with ⟨dig, _, rfl⟩
        exact digitChar_mem dig

/-- C9: the normalization of a finite value keeps at most eight fractional
    digits with no trailing zeros, renders in plain fixed-point notation
    (sign, digits and one point, never an exponent), and parses back to
    within 1e-8 of the original; a non-finite value becomes the string 0,
    as does a missing value through formatNumber. -/
theorem decimal_normalization_sound (q : ℚ) (v : JNum)
    (hv : v.isFinite = false) :
    (toDbNumberString (.fin q)).frac.length ≤ 8 ∧
    (toDbNumberString (.fin q)).frac.getLast? ≠ some 0 ∧
    |(toDbNumberString (.fin q)).val - q| < 1 / 10 ^ 8 ∧
    (∀ c ∈ (DecString.render (toDbNumberString (.fin q))).data,
      c ∈ ['-', '.', '0', '1', '2', '3', '4', '5', '6', '7', '8', '9']) ∧
    toDbNumberString v = ⟨false, 0, []⟩ ∧
    DecString.render ⟨false, 0, []⟩ = "0" ∧
    formatNumber none = ⟨false, 0, []⟩ := by
  refine ⟨?_, stripTrailingZeros_no_trailing_zero _, toDbNumberString_val_close q,
    render_chars _, ?_, by decide, rfl⟩
  · have h := stripTrailingZeros_length_le
      (digitsBE 8 ((jsRound (q * 10 ^ 8)).natAbs % 10 ^ 8))
    simpa [toDbNumberString, digitsBE_length] using h
  · cases v with
    | fin q' => simp [JNum.isFinite] at hv
    | nan => rfl
    | inf => rfl
    | ninf => rfl

/-- C9 witness: the theorem at one third and NaN. -/
theorem decimal_normalization_sound_witness :
    |(toDbNumberString (.fin (1 / 3))).val - 1 / 3| < 1 / 10 ^ 8 ∧
    toDbNumberString .nan = ⟨false, 0, []⟩ := by
  refine ⟨?_, ?_⟩
  · exact (decimal_normalization_sound (1 / 3) .nan rfl).2.2.1
  · exact (decimal_normalization_sound (1 / 3) .nan rfl).2.2.2.2.1

/-- C7 witness: the three rejections at concrete windows. -/
theorem runBacktest_rejects_invalid_windows_witness :
    runBacktest ⟨some [], id⟩ ⟨"BTCUSDT", 100, 50, 1000⟩ 2000 =
      (.error "Start date must be before end date", ⟨false, false, false⟩) ∧
    runBacktest ⟨some [], id⟩ ⟨"BTCUSDT", 0, 40000000000, 1000⟩ 50000000000 =
      (.error "Date range cannot exceed 365 days", ⟨false, false, false⟩) ∧
    runBacktest ⟨some [], id⟩ ⟨"BTCUSDT", 0, 100, 1000⟩ 50 =
      (.error "End date cannot be in the future", ⟨false, false, false⟩) :=
  ⟨(runBacktest_rejects_invalid_windows _ _ _).1 (by norm_num),
    (runBacktest_rejects_invalid_windows _ _ _).2.1 (by norm_num) (by norm_num),
    (runBacktest_rejects_invalid_windows _ _ _).2.2.1 (by norm_num) (by norm_num)
      (by norm_num)⟩

/-! ## C8: the composite pair score is bounded -/

/-- Cauchy-Schwarz for a list against the all-ones vector. -/
theorem list_sq_sum_le (l : List ℝ) :
    (l.sum) ^ 2 ≤ (l.length : ℝ) * (l.map (fun y => y ^ 2)).sum := by
  induction l with
  | nil => simp
  | cons a l ih =>
    rcases eq_or_ne l [] with rfl | hne
    · simp
    · have hn : 0 < (l.length : ℝ) := by
        have h0 : 0 < l.length := List.length_pos.mpr hne
        exact_mod_cast h0
      simp only [List.sum_cons, List.map_cons, List.length_cons]
      push_cast
      nlinarith [ih, sq_nonneg ((l.length : ℝ) * a - l.sum), hn]

theorem sum_map_sub_const (l : List ℝ) (m : ℝ) :
    (l.map (fun p => p - m)).sum = l.sum - l.length * m := by
  induction l with
  | nil => simp
  | cons a l ih =>
    simp only [List.map_cons, List.sum_cons, List.length_cons, ih]
    push_cast
    ring

/-- A member that is the last element of a window deviates from the window
    mean by at most the square root of n - 1 standard deviations. -/
theorem last_deviation_sq_le (l : List ℝ) (x : ℝ) :
    ((l ++ [x]).length : ℝ) * (x - (l ++ [x]).sum / (l ++ [x]).length) ^ 2 ≤
      (((l ++ [x]).length : ℝ) - 1) *
        ((l ++ [x]).map
          (fun p => (p - (l ++ [x]).sum / (l ++ [x]).length) ^ 2)).sum := by
  set n : ℝ := ((l ++ [x]).length : ℝ) with hn
  set m : ℝ := (l ++ [x]).sum / n with hm
  have hlen : n = (l.length : ℝ) + 1 := by
    rw [hn]
    push_cast [List.length_append, List.length_singleton]
    ring
  have hnpos : 0 < n := by rw [hlen]; positivity
  have hsum : (l ++ [x]).sum = n * m := by
    rw [hm]
    field_simp
  have hsl : (l.map (fun p => p - m)).sum = -(x - m) := by
    have h1 : (l.map (fun p => p - m)).sum = l.sum - l.length * m :=
      sum_map_sub_const l m
    have h2 : l.sum = (l ++ [x]).sum - x := by simp
    rw [h1, h2, hsum, hlen]
    ring
  have hcs := list_sq_sum_le (l.map (fun p => p - m))
  rw [hsl, List.length_map] at hcs
  have hmapmap : ((l.map (fun p => p - m)).map (fun y => y ^ 2)).sum =
      (l.map (fun p => (p - m) ^ 2)).sum := by
    rw [List.map_map]
    rfl
  rw [hmapmap] at hcs
  have hq : ((l ++ [x]).map (fun p => (p - m) ^ 2)).sum =
      (l.map (fun p => (p - m) ^ 2)).sum + (x - m) ^ 2 := by simp
  rw [hq]
  have hlen' : (l.length : ℝ) = n - 1 := by rw [hlen]; ring
  rw [hlen'] at hcs
  have hneg : (-(x - m)) ^ 2 = (x - m) ^ 2 := by ring
  rw [hneg] at hcs
  nlinarith [hcs]

/-- The last entry of a map over a range. -/
theorem rangeMap_getLastD {α : Type} (n : ℕ) (f : ℕ → α) (d : α) (hn : n ≠ 0) :
    (((List.range n).map f).getLastD d) = f (n - 1) := by
  obtain ⟨m, rfl⟩ := Nat.exists_eq_succ_of_ne_zero hn
  rw [List.range_succ, List.map_append]
  simp [List.getLastD_concat]

/-- The rsi score formula stays in the unit range scaled to 100. -/
theorem rsi_value_range (avgGain avgLoss : ℝ) (hg : 0 ≤ avgGain)
    (hl : 0 ≤ avgLoss) (r : ℝ)
    (h : (if avgLoss = 0 then some (100 : ℝ)
          else some (100 - 100 / (1 + avgGain / avgLoss))) = some r) :
    0 ≤ r ∧ r ≤ 100 := by
  by_cases h0 : avgLoss = 0
  · rw [if_pos h0] at h
    have := Option.some.inj h
    subst this
    norm_num
  · rw [if_neg h0] at h
    have hr := Option.some.inj h
    subst hr
    have hlpos : 0 < avgLoss := lt_of_le_of_ne hl (Ne.symm h0)
    have hrs : 0 ≤ avgGain / avgLoss := div_nonneg hg (le_of_lt hlpos)
    have h1 : 0 < (1 : ℝ) + avgGain / avgLoss := by linarith
    have h2 : 100 / (1 + avgGain / avgLoss) ≤ 100 := by
      rw [div_le_iff h1]
      nlinarith
    have h3 : 0 < 100 / (1 + avgGain / avgLoss) := by positivity
    constructor <;> linarith

theorem avg_div_nonneg (g : List ℝ) (period : ℕ) (hall : ∀ y ∈ g, 0 ≤ y) :
    0 ≤ if g.length ≠ 0 then g.sum / (period : ℝ) else 0 := by
  split
  · exact div_nonneg (List.sum_nonneg hall) (by positivity)
  · exact le_refl 0

/-- Every defined entry that calculateRSI can deliver lies in [0, 100]. -/
theorem calculateRSI_getLastD_range (prices : List ℝ) (period : ℕ) (r : ℝ)
    (h : (calculateRSI prices period).getLastD none = some r) :
    0 ≤ r ∧ r ≤ 100 := by
  rcases eq_or_ne prices.length 0 with hlen | hlen
  · exfalso
    simp [calculateRSI, hlen] at h
  · rw [show (calculateRSI prices period).getLastD none =
        (fun i =>
          if i < period then (none : Option ℝ)
          else
            let relevantChanges :=
              (((List.zipWith (fun a b => a - b) (prices.drop 1) prices)).drop
                (i - period)).take period
            let gains := relevantChanges.filter (fun c => decide (0 < c))
            let losses := (relevantChanges.filter (fun c => decide (c < 0))).map
              (fun c => |c|)
            let avgGain :=
              if gains.length ≠ 0 then gains.sum / (period : ℝ) else 0
            let avgLoss :=
              if losses.length ≠ 0 then losses.sum / (period : ℝ) else 0
            if avgLoss = 0 then some 100
            else
              let rs := avgGain / avgLoss
              some (100 - 100 / (1 + rs))) (prices.length - 1)
      from rangeMap_getLastD prices.length _ none hlen] at h
    simp only [] at h
    by_cases hw : prices.length - 1 < period
    · rw [if_pos hw] at h
      exact absurd h (by simp)
    · rw [if_neg hw] at h
      refine rsi_value_range _ _ ?_ ?_ r h
      · apply avg_div_nonneg
        intro y hy
        have hmem := List.of_mem_filter hy
        exact le_of_lt (by simpa using hmem)
      · apply avg_div_nonneg
        intro y hy
        rcases List.mem_map.mp hy with ⟨c, _, rfl⟩
        exact abs_nonneg c

theorem scoreRSI_bounds (o : Option ℝ)
    (h : ∀ r, o = some r → 0 ≤ r ∧ r ≤ 100) :
    30 ≤ scoreRSI o ∧ scoreRSI o ≤ 70 := by
  cases o with
  | none => norm_num [scoreRSI]
  | some r =>
    obtain ⟨h0, h100⟩ := h r rfl
    simp only [scoreRSI]
    by_cases h30 : r < 30
    · rw [if_pos h30]
      constructor <;> linarith
    · rw [if_neg h30]
      by_cases h70 : 70 < r
      · rw [if_pos h70]
        constructor <;> linarith
      · rw [if_neg h70]
        norm_num

theorem scoreMACD_bounds (m : MACDResult) :
    30 ≤ scoreMACD m ∧ scoreMACD m ≤ 80 := by
  unfold scoreMACD
  split
  · constructor <;> (repeat' split) <;> (try norm_num) <;> (split <;> norm_num)
  · norm_num

theorem scoreVolume_bounds (currentVolume avgVolume : ℝ) :
    20 ≤ scoreVolume currentVolume avgVolume ∧
    scoreVolume currentVolume avgVolume ≤ 100 := by
  simp only [scoreVolume]
  constructor <;> split_ifs <;> norm_num

theorem scoreMomentum_bounds (prices : List ℝ) (sma20 : List (Option ℝ))
    (ema50 : List ℝ) :
    50 ≤ scoreMomentum prices sma20 ema50 ∧
    scoreMomentum prices sma20 ema50 ≤ 100 := by
  unfold scoreMomentum
  split
  · constructor
    · refine le_min (by norm_num) ?_
      split_ifs <;> norm_num
    · exact min_le_left _ _
  · norm_num

theorem scoreVolatility_bounds (prices : List ℝ)
    (support resistance currentPrice : ℝ) :
    30 ≤ scoreVolatility prices support resistance currentPrice ∧
    scoreVolatility prices support resistance currentPrice ≤ 70 := by
  simp only [scoreVolatility]
  constructor <;> split_ifs <;> norm_num

/-- scoreBollinger is bounded whenever the band position of the price
    stays in the range the window deviation allows. -/
theorem scoreBollinger_generic_bounds (price : ℝ) (bands : BollingerBands)
    (h : ∀ u l, bands.upper.getLastD none = some u →
      bands.lower.getLastD none = some l → u - l ≠ 0 →
      -(3 / 5 : ℝ) ≤ (price - l) / (u - l) ∧ (price - l) / (u - l) ≤ 8 / 5) :
    0 ≤ scoreBollinger price bands ∧ scoreBollinger price bands ≤ 140 := by
  unfold scoreBollinger
  split
  · rename_i u l hu hl
    by_cases hbw : u - l = 0
    · rw [if_pos hbw]
      norm_num
    · rw [if_neg hbw]
      obtain ⟨hd1, hd2⟩ := h u l hu hl hbw
      dsimp only
      split_ifs with h1 h2 <;> constructor <;> linarith
  · norm_num

/-- The last price of the series stays within the Bollinger band range of
    its own window, because it is one of the twenty window members. -/
theorem scoreBollinger_of_calculate (prices : List ℝ)
    (hn : prices.length ≠ 0) :
    0 ≤ scoreBollinger (prices.getLastD 0)
        (calculateBollingerBands prices 20 2) ∧
    scoreBollinger (prices.getLastD 0)
        (calculateBollingerBands prices 20 2) ≤ 140 := by
  apply scoreBollinger_generic_bounds
  intro u l hu hl hbw
  simp only [calculateBollingerBands] at hu hl
  rw [rangeMap_getLastD prices.length _ none hn] at hu hl
  by_cases hw : prices.length - 1 < 20 - 1
  · rw [if_pos hw] at hu
    simp at hu
  · rw [if_neg hw] at hu hl
    simp only [Option.map_some'] at hu hl
    have hu' := Option.some.inj hu
    have hl' := Option.some.inj hl
    have h20 : 20 ≤ prices.length := by omega
    have hidx : prices.length - 1 + 1 - 20 = prices.length - 20 := by omega
    rw [hidx] at hu' hl'
    have hdroplen : (prices.drop (prices.length - 20)).length = 20 := by
      rw [List.length_drop]
      omega
    have hwl : (prices.drop (prices.length - 20)).take 20 =
        prices.drop (prices.length - 20) :=
      List.take_of_length_le (le_of_eq hdroplen)
    rw [hwl] at hu' hl'
    set w := prices.drop (prices.length - 20) with hwdef
    have hlen20 : w.length = 20 := hdroplen
    have hne : prices ≠ [] := by
      intro h0
      exact hn (by rw [h0]; rfl)
    obtain ⟨y, hy⟩ := Option.isSome_iff_exists.mp (List.getLast?_isSome.mpr hne)
    have hgd : prices.getLastD 0 = y := by
      rw [List.getLastD_eq_getLast? 0 prices, hy]
      rfl
    have hwy : w.getLast? = some y := by
      rw [List.getLast?_eq_getElem? w, hlen20, hwdef, List.getElem?_drop]
      rw [List.getLast?_eq_getElem? prices] at hy
      rw [show prices.length - 20 + (20 - 1) = prices.length - 1 by omega]
      exact hy
    have hdev := last_deviation_sq_le w.dropLast y
    rw [List.dropLast_append_getLast? y hwy] at hdev
    rw [hlen20] at hdev
    push_cast at hdev hu' hl'
    set m := w.sum / 20 with hm
    set q := (w.map (fun p => (p - m) ^ 2)).sum with hq
    set sd := Real.sqrt (q / 20) with hsd
    have hsd0 : 0 ≤ sd := Real.sqrt_nonneg _
    have hq0 : 0 ≤ q := by
      apply List.sum_nonneg
      intro z hz
      rcases List.mem_map.mp hz with ⟨p, _, rfl⟩
      exact sq_nonneg _
    have hvar0 : (0 : ℝ) ≤ q / 20 := by positivity
    have hsdsq : sd ^ 2 = q / 20 := Real.sq_sqrt hvar0
    have hbw4 : u - l = 4 * sd := by
      rw [← hu', ← hl']
      ring
    have hsdpos : 0 < sd := by
      rcases lt_or_eq_of_le hsd0 with hlt | heq0
      · exact hlt
      · exact absurd (by rw [hbw4, ← heq0]; ring) hbw
    have hsq : (y - m) ^ 2 ≤ 19 * sd ^ 2 := by
      rw [hsdsq]
      nlinarith [hdev]
    have habs : |y - m| ≤ Real.sqrt 19 * sd := by
      have h1 : Real.sqrt ((y - m) ^ 2) ≤ Real.sqrt (19 * sd ^ 2) :=
        Real.sqrt_le_sqrt hsq
      rw [Real.sqrt_sq_eq_abs, Real.sqrt_mul (by norm_num : (0 : ℝ) ≤ 19),
        Real.sqrt_sq hsd0] at h1
      exact h1
    have hsqrt19 : Real.sqrt 19 ≤ 4.4 := by
      have h1 : (19 : ℝ) ≤ 4.4 ^ 2 := by norm_num
      have h2 := Real.sqrt_le_sqrt h1
      rwa [Real.sqrt_sq (by norm_num : (0 : ℝ) ≤ 4.4)] at h2
    have habs' : |y - m| ≤ 4.4 * sd :=
      le_trans habs (mul_le_mul_of_nonneg_right hsqrt19 hsd0)
    obtain ⟨hdl, hdr⟩ := abs_le.mp habs'
    rw [hgd, hbw4, ← hl']
    have hpos4 : (0 : ℝ) < 4 * sd := by positivity
    constructor
    · rw [le_div_iff₀ hpos4]
      linarith
    · rw [div_le_iff₀ hpos4]
      linarith

/-- C8: the composite pair score always lies in the closed interval from 0
    to 100, inputs with the price outside the bands and NaN indicator
    readings included; and a thrown kline fetch scores zero with all-zero
    sub-scores rather than escaping or omitting the pair. -/
theorem scorePair_bounded (fetchedKlines : Except String (List KlineR)) :
    0 ≤ (scorePair fetchedKlines).score ∧
    (scorePair fetchedKlines).score ≤ 100 ∧
    (∀ e, scorePair (.error e) = zeroPairScore) := by
  have key : ∀ klines : List KlineR,
      0 ≤ (scorePairOk klines).score ∧ (scorePairOk klines).score ≤ 100 := by
    intro klines
    unfold scorePairOk
    by_cases hlen : klines.length = 0
    · rw [if_pos hlen]
      norm_num [zeroPairScore]
    · rw [if_neg hlen]
      have hplen : (klines.map (·.closePrice)).length ≠ 0 := by
        rwa [List.length_map]
      have hrsi : 30 ≤ (pairFactors klines).rsi ∧
          (pairFactors klines).rsi ≤ 70 := by
        apply scoreRSI_bounds
        intro r hr
        exact calculateRSI_getLastD_range _ _ _ hr
      have hmacd : 30 ≤ (pairFactors klines).macd ∧
          (pairFactors klines).macd ≤ 80 := scoreMACD_bounds _
      have hboll : 0 ≤ (pairFactors klines).bollinger ∧
          (pairFactors klines).bollinger ≤ 140 := by
        have heq : (pairFactors klines).bollinger =
            scoreBollinger ((klines.map (·.closePrice)).getLastD 0)
              (calculateBollingerBands (klines.map (·.closePrice)) 20 2) := rfl
        rw [heq]
        exact scoreBollinger_of_calculate _ hplen
      have hvol : 20 ≤ (pairFactors klines).volume ∧
          (pairFactors klines).volume ≤ 100 := scoreVolume_bounds _ _
      have hmom : 50 ≤ (pairFactors klines).momentum ∧
          (pairFactors klines).momentum ≤ 100 := scoreMomentum_bounds _ _ _
      have hvola : 30 ≤ (pairFactors klines).volatility ∧
          (pairFactors klines).volatility ≤ 70 :=
        scoreVolatility_bounds (klines.map (·.closePrice))
          (calculateSupportResistance klines).1
          (calculateSupportResistance klines).2 (getCurrentPrice klines)
      show 0 ≤ weightedScore (pairFactors klines) ∧
        weightedScore (pairFactors klines) ≤ 100
      unfold weightedScore
      constructor
      · nlinarith [hrsi.1, hmacd.1, hboll.1, hvol.1, hmom.1, hvola.1]
      · nlinarith [hrsi.2, hmacd.2, hboll.2, hvol.2, hmom.2, hvola.2]
  cases fetchedKlines with
  | error e => exact ⟨le_refl 0, by norm_num [scorePair, zeroPairScore], fun _ => rfl⟩
  | ok klines => exact ⟨(key klines).1, (key klines).2, fun _ => rfl⟩

end BinanceBot
